import Mathlib

/-!
Verification development for the `codeclean` repository.

The repository's rewrite engine lives in `code_cleaner.py` and (identically) in
`codecleaner/core.py`:

* `FunctionCallRemover`, an `ast.NodeTransformer` with visitors `visit_Expr`,
  `visit_If`, `visit_For`, `visit_While`, `visit_Try` and the helper
  `_get_full_name`;
* `remove_comments`, a regex substitution stripping `#` comments;
* `clean_file`, the per-file orchestrator.

This file gives a shallow embedding of those components.  The Python AST is
embedded as a family of mutually inductive types covering exactly the node
shapes the transformer dispatches on (plus representative statements it only
passes through: assignments and function definitions).  `ast.NodeTransformer`
semantics for statement lists — a visitor returning `None` deletes the node
from its parent's list, otherwise the returned node replaces it in place — is
embedded directly in `transformBody`.  File I/O (reading, writing, backups) is
external; `clean_file` is embedded as the pure decision core over an
already-read source string, with `ast.parse` modelled by an `Option` parameter
and `ast.unparse` by a function parameter.

Set_option note: proofs are plain structural inductions.
-/

set_option maxHeartbeats 1000000

/-! ## The embedded Python AST

Expression shapes: `ast.Name`, `ast.Attribute`, `ast.Call`, plus `Constant`
standing for every other expression kind (literals, operators, …), which the
transformer never inspects beyond "not a Name / not an Attribute / not a
Call". -/

mutual
/-- Python expressions, as far as `FunctionCallRemover` distinguishes them. -/
inductive PyExpr where
  | Name (id : String)
  | Attribute (value : PyExpr) (attr : String)
  | Call (func : PyExpr) (args : ExprList)
  | Constant (n : Nat)
  deriving DecidableEq

/-- Argument lists of calls (kept opaque to the transformer). -/
inductive ExprList where
  | nil
  | cons (e : PyExpr) (rest : ExprList)
  deriving DecidableEq
end

mutual
/-- Python statements: the kinds `FunctionCallRemover` has visitors for
(`Expr`, `If`, `For`, `While`, `Try`), the no-op `Pass`, and two
representatives of statements it merely recurses through: `Assign` (a simple
statement) and `FunctionDef` (a compound statement with a body but no
visitor). -/
inductive Stmt where
  | Expr (value : PyExpr)
  | Pass
  | Assign (target : String) (value : PyExpr)
  | If (test : PyExpr) (body : StmtList) (orelse : StmtList)
  | For (target : String) (iter : PyExpr) (body : StmtList) (orelse : StmtList)
  | While (test : PyExpr) (body : StmtList) (orelse : StmtList)
  | Try (body : StmtList) (handlers : HandlerList) (orelse : StmtList) (finalbody : StmtList)
  | FunctionDef (name : String) (body : StmtList)
  deriving DecidableEq

/-- Ordered statement lists (bodies, else-clauses, finally-clauses). -/
inductive StmtList where
  | nil
  | cons (s : Stmt) (rest : StmtList)
  deriving DecidableEq

/-- An `ast.ExceptHandler`: an optional exception type and a body. -/
inductive ExceptHandler where
  | mk (exnType : Option PyExpr) (body : StmtList)
  deriving DecidableEq

/-- Ordered handler lists of a `Try` statement. -/
inductive HandlerList where
  | nil
  | cons (h : ExceptHandler) (rest : HandlerList)
  deriving DecidableEq
end

/-- Append of statement lists (used to speak about siblings of a construct in
its parent's list). -/
def StmtList.append : StmtList → StmtList → StmtList
  | .nil, l2 => l2
  | .cons s rest, l2 => .cons s (rest.append l2)

/-- Append of handler lists. -/
def HandlerList.append : HandlerList → HandlerList → HandlerList
  | .nil, l2 => l2
  | .cons h rest, l2 => .cons h (rest.append l2)

/-- The `handle_empty_blocks` configuration string of `FunctionCallRemover`:
`'pass'` (spec name: Synthesize), `'remove'` (Delete), `'keep'` (Preserve). -/
inductive EBMode where
  | passMode
  | removeMode
  | keepMode
  deriving DecidableEq

/-! ## The transformer: `FunctionCallRemover` -/

/-- `FunctionCallRemover._get_full_name` (code_cleaner.py lines 50-56), called
on an `ast.Attribute` node with parts `value` and `attr`:
a `Name` base gives `id.attr`, an `Attribute` base recurses, and any other
base shape falls through to `return node.attr`. -/
def get_full_name (value : PyExpr) (attr : String) : String :=
  match value with
  | .Name id => id ++ "." ++ attr
  | .Attribute v a => get_full_name v a ++ "." ++ attr
  | _ => attr

/-- The removal test of `visit_Expr` (code_cleaner.py lines 34-45): the
statement's value must be a `Call`; a `Name` callee matches by its identifier,
an `Attribute` callee by `_get_full_name`; any other callee shape does not
match. -/
def matchedCall (names : List String) (e : PyExpr) : Bool :=
  match e with
  | .Call f _ =>
    match f with
    | .Name id => names.contains id
    | .Attribute v a => names.contains (get_full_name v a)
    | _ => false
  | _ => false

/-- The dotted name the code resolves a callee to, if any: `visit_Expr`
resolves a `Name` to its identifier and an `Attribute` via `_get_full_name`;
every other callee shape resolves to nothing (the statement is kept). -/
def resolvedCalleeName : PyExpr → Option String
  | .Name id => some id
  | .Attribute v a => some (get_full_name v a)
  | _ => none

/-- Resolution as the specification words it: a bare identifier resolves to
itself, an attribute access resolves by recursively joining the base's
resolved name with the attribute label, and any other shape (a call result,
a literal) does not resolve at all. -/
def specResolvedName : PyExpr → Option String
  | .Name id => some id
  | .Attribute v a => (specResolvedName v).map (fun s => s ++ "." ++ a)
  | _ => none

/-- Whether, per the specification's resolution rule, a statement-level call
matches the configured name set. -/
def specMatchedCall (names : List String) (e : PyExpr) : Bool :=
  match e with
  | .Call f _ =>
    match specResolvedName f with
    | some n => names.contains n
    | none => false
  | _ => false

/-- The body-emptiness reconciliation repeated in `visit_If` / `visit_For` /
`visit_While` / `visit_Try` (e.g. code_cleaner.py lines 63-67): if the body
became empty and the mode is not `'keep'`, either synthesize a single
`ast.Pass()` (`'pass'`) or signal removal of the whole construct by `None`
(`'remove'`). -/
def reconcileBody (mode : EBMode) (b : StmtList) : Option StmtList :=
  if b = .nil ∧ mode ≠ .keepMode then
    if mode = .passMode then some (.cons .Pass .nil) else none
  else some b

/-- The else-clause (and finally-clause) reconciliation repeated in the same
visitors (e.g. code_cleaner.py lines 70-75): an empty clause gets a single
`ast.Pass()` under `'pass'`, and is (re)set to the empty list under
`'remove'`. -/
def reconcileElse (mode : EBMode) (o : StmtList) : StmtList :=
  if o = .nil ∧ mode ≠ .keepMode then
    if mode = .passMode then .cons .Pass .nil else .nil
  else o

/-- The handler filtering loop of `visit_Try` (code_cleaner.py lines 132-143):
a handler whose body is empty gets a `Pass` body and is kept under `'pass'`,
is skipped under `'remove'`, and is kept as-is otherwise; handlers with
non-empty bodies are always kept, in order. -/
def reconcileHandlers (mode : EBMode) : HandlerList → HandlerList
  | .nil => .nil
  | .cons (.mk t b) rest =>
    if b = .nil ∧ mode ≠ .keepMode then
      if mode = .passMode then .cons (.mk t (.cons .Pass .nil)) (reconcileHandlers mode rest)
      else reconcileHandlers mode rest
    else .cons (.mk t b) (reconcileHandlers mode rest)

mutual
/-- One visit of `FunctionCallRemover` on a statement, returning the
replacement (`none` = the node is deleted from its parent's list) together
with the number of call-statements removed in the subtree.  Each branch
mirrors the corresponding visitor of code_cleaner.py: `visit_Expr`
(lines 31-48), `visit_If` (58-77), `visit_For` (79-98), `visit_While`
(100-119), `visit_Try` (121-152); `Pass`, `Assign` and `FunctionDef` have no
visitor and go through `generic_visit`, which only recurses into child
statement lists. -/
def transformStmt (names : List String) (mode : EBMode) : Stmt → Option Stmt × Nat
  | .Expr e =>
    if matchedCall names e then (none, 1) else (some (.Expr e), 0)
  | .Pass => (some .Pass, 0)
  | .Assign t e => (some (.Assign t e), 0)
  | .If test body orelse =>
    let (b, c1) := transformBody names mode body
    let (o, c2) := transformBody names mode orelse
    match reconcileBody mode b with
    | none => (none, c1 + c2)
    | some b' => (some (.If test b' (reconcileElse mode o)), c1 + c2)
  | .For tgt iter body orelse =>
    let (b, c1) := transformBody names mode body
    let (o, c2) := transformBody names mode orelse
    match reconcileBody mode b with
    | none => (none, c1 + c2)
    | some b' => (some (.For tgt iter b' (reconcileElse mode o)), c1 + c2)
  | .While test body orelse =>
    let (b, c1) := transformBody names mode body
    let (o, c2) := transformBody names mode orelse
    match reconcileBody mode b with
    | none => (none, c1 + c2)
    | some b' => (some (.While test b' (reconcileElse mode o)), c1 + c2)
  | .Try body handlers orelse finalbody =>
    let (b, c1) := transformBody names mode body
    let (hs, c2) := transformHandlers names mode handlers
    let (o, c3) := transformBody names mode orelse
    let (f, c4) := transformBody names mode finalbody
    match reconcileBody mode b with
    | none => (none, c1 + c2 + c3 + c4)
    | some b' =>
      (some (.Try b' (reconcileHandlers mode hs) o (reconcileElse mode f)), c1 + c2 + c3 + c4)
  | .FunctionDef n body =>
    let (b, c) := transformBody names mode body
    (some (.FunctionDef n b), c)

/-- `ast.NodeTransformer.generic_visit` on an ordered statement list: every
statement is visited; a `None` result deletes the statement, any other result
replaces it in place, preserving order. -/
def transformBody (names : List String) (mode : EBMode) : StmtList → StmtList × Nat
  | .nil => (.nil, 0)
  | .cons s rest =>
    let (r, c1) := transformStmt names mode s
    let (rest', c2) := transformBody names mode rest
    match r with
    | none => (rest', c1 + c2)
    | some s' => (.cons s' rest', c1 + c2)

/-- `generic_visit` over the handler list of a `Try`: each handler (which has
no visitor of its own) has its body transformed; no handler is added or
dropped at this stage. -/
def transformHandlers (names : List String) (mode : EBMode) : HandlerList → HandlerList × Nat
  | .nil => (.nil, 0)
  | .cons (.mk t b) rest =>
    let (b', c1) := transformBody names mode b
    let (rest', c2) := transformHandlers names mode rest
    (.cons (.mk t b') rest', c1 + c2)
end

/-- `transformer.visit(tree)` on a parsed module: `ast.Module` has no visitor,
so `generic_visit` rewrites its body list.  The pair is the rewritten
top-level statement list and `transformer.removed_count`. -/
def transformModule (names : List String) (mode : EBMode) (body : StmtList) : StmtList × Nat :=
  transformBody names mode body

/-! ## The comment stripper: `remove_comments` -/

/-- Whether an optional preceding character is one of the two quote characters
the lookbehind `(?<!\'|\")` of `remove_comments` rejects.  `none` stands for
the start of the input, which the lookbehind accepts. -/
def isQuoteOpt : Option Char → Bool
  | some c => c = '\'' || c = '"'
  | none => false

/-- Character-level semantics of
`re.sub(r'(?<!\'|\")#[^\n]*', '', source)` (code_cleaner.py lines 178-186):
scanning left to right, a `#` not immediately preceded by a quote character
starts a match that greedily extends to (excluding) the next newline and is
replaced by nothing; all other characters are copied.  `inComment` records
whether the scanner is inside such a match. -/
def stripChars (prev : Option Char) (inComment : Bool) : List Char → List Char
  | [] => []
  | c :: cs =>
    if inComment then
      if c = '\n' then c :: stripChars (some c) false cs
      else stripChars (some c) true cs
    else
      if c = '#' && !isQuoteOpt prev then stripChars (some c) true cs
      else c :: stripChars (some c) false cs

/-- `remove_comments` of code_cleaner.py lines 178-186. -/
def remove_comments (source : String) : String :=
  String.mk (stripChars none false source.data)

/-- Split a character list into its lines at `'\n'` (the separators are
dropped; the result always has at least one line). -/
def splitOnNl : List Char → List (List Char)
  | [] => [[]]
  | c :: cs =>
    if c = '\n' then [] :: splitOnNl cs
    else
      match splitOnNl cs with
      | [] => [[c]]
      | l :: ls => (c :: l) :: ls

/-- Rejoin lines with `'\n'` (left inverse of `splitOnNl`). -/
def joinNl : List (List Char) → List Char
  | [] => []
  | [l] => l
  | l :: l2 :: ls => l ++ '\n' :: joinNl (l2 :: ls)

/-- Strip one line as the specification words it: delete everything from the
first comment-start marker `#` that is not immediately preceded by a quote
character through the end of the line.  `prev` is the character preceding the
current position (`none` at the very start). -/
def stripLine (prev : Option Char) : List Char → List Char
  | [] => []
  | c :: cs =>
    if c = '#' && !isQuoteOpt prev then []
    else c :: stripLine (some c) cs

/-- The comment stripper as the specification describes it: per line, delete
from the first non-quote-preceded `#` to the end of that line, leaving the
rest of the text unchanged. -/
def specRemoveComments (source : String) : String :=
  String.mk (joinNl ((splitOnNl source.data).map (stripLine none)))

/-- Line-wise view of a scan that starts outside a comment with preceding
character `prev`: the first line is stripped relative to `prev`, later lines
relative to their own starts. -/
def stripFirstRest (prev : Option Char) : List (List Char) → List (List Char)
  | [] => []
  | l :: ls => stripLine prev l :: ls.map (stripLine none)

/-- Line-wise view of a scan that starts inside a comment: the rest of the
first line is dropped, later lines are stripped normally. -/
def dropFirstRest : List (List Char) → List (List Char)
  | [] => []
  | _ :: ls => [] :: ls.map (stripLine none)

/-- Whether every handler in a list has a non-empty body (used to state
handler-independence: such handlers are never filtered out). -/
def handlerBodiesNonempty : HandlerList → Bool
  | .nil => true
  | .cons (.mk _ .nil) _ => false
  | .cons (.mk _ (.cons _ _)) rest => handlerBodiesNonempty rest

/-! ## The orchestrator: `clean_file` (pure decision core)

`clean_file` (code_cleaner.py lines 189-281) reads a file, parses it,
transforms, unparses, optionally strips comments, and writes back.  Reading,
parsing, unparsing, backing up and writing are external I/O; the functions
below embed the pure data flow between them.  `parsed = none` models
`ast.parse` (or the subsequent transform/unparse) raising, which `clean_file`
catches and recovers from; `unparse` is the external `ast.unparse`. -/

/-- Per-file statistics and effect decisions of `clean_file`:
`function_calls_removed` and `comments_removed` mirror the stats dict;
`write_attempted` is the condition of the write-back branch (line 263);
`backup_attempted` whether `create_backup` is invoked inside it (lines
266-267); `output` is the final `modified_source`. -/
structure FileStats where
  function_calls_removed : Nat
  comments_removed : Bool
  write_attempted : Bool
  backup_attempted : Bool
  output : String
  deriving DecidableEq

/-- The AST stage of `clean_file` (lines 237-253): on a successful parse,
transform and count; the re-serialized text is adopted as `modified_source`
only when `removed_count > 0`.  On failure (`none`) the stage is skipped and
the source text is kept with a zero count. -/
def astStage (parsed : Option StmtList) (unparse : StmtList → String) (names : List String)
    (mode : EBMode) (source : String) : String × Nat :=
  match parsed with
  | none => (source, 0)
  | some tree =>
    let (tree', count) := transformModule names mode tree
    (if count > 0 then unparse tree' else source, count)

/-- The comment-removal stage of `clean_file` (lines 255-260): when enabled,
strip comments from the current text and record whether that changed it. -/
def stripStage (flag : Bool) (text : String) : String × Bool :=
  if flag then
    let s := remove_comments text
    if s ≠ text then (s, true) else (text, false)
  else (text, false)

/-- The pure decision core of `clean_file` (lines 234-275): AST stage, then
comment stage, then the write-back condition
`not dry_run and (function_calls_removed > 0 or comments_removed)` with a
backup attempted inside the write branch iff `create_backup_flag`. -/
def clean_file (parsed : Option StmtList) (unparse : StmtList → String) (source : String)
    (names : List String) (remove_comments_flag dry_run create_backup_flag : Bool)
    (mode : EBMode) : FileStats :=
  let (m1, count) := astStage parsed unparse names mode source
  let (m2, ch) := stripStage remove_comments_flag m1
  let write := !dry_run && (decide (count > 0) || ch)
  { function_calls_removed := count
    comments_removed := ch
    write_attempted := write
    backup_attempted := write && create_backup_flag
    output := m2 }

/-! ## Theorems -/

/-- A statement-level call matches (in the code's sense) iff its callee
resolves to a dotted name that is in the configured set. -/
theorem matchedCall_iff (names : List String) (f : PyExpr) (args : ExprList) :
    matchedCall names (.Call f args) = true
      ↔ ∃ n, resolvedCalleeName f = some n ∧ n ∈ names := by
  cases f <;> simp [matchedCall, resolvedCalleeName]

/-- On callees whose base chain is all names/attributes, `_get_full_name`
agrees with the specification's recursive join. -/
theorem get_full_name_spec (v : PyExpr) :
    ∀ (a s : String), specResolvedName v = some s → get_full_name v a = s ++ "." ++ a :=
  match v with
  | .Name id => by intro a s h; simp [specResolvedName] at h; subst h; rfl
  | .Attribute v' a' => by
      intro a s h
      simp [specResolvedName, Option.map_eq_some'] at h
      obtain ⟨s', h1, h2⟩ := h
      have ih := get_full_name_spec v' a' s' h1
      simp [get_full_name, ih, ← h2]
  | .Call g as => by intro a s h; simp [specResolvedName] at h
  | .Constant n => by intro a s h; simp [specResolvedName] at h

/-- C1 (counterexample): the claim is false as stated.  The statement
`f().bar()` has a callee whose base is a call result; per the claim's
resolution rule it resolves to nothing and must be kept, but the code's
`_get_full_name` falls back to the bare attribute label `"bar"`, which is in
the configured set, so the transformer removes the statement. -/
theorem C1_resolution_counterexample :
    (transformStmt ["bar"] .passMode
        (.Expr (.Call (.Attribute (.Call (.Name "f") .nil) "bar") .nil))).1 = none
    ∧ specMatchedCall ["bar"] (.Call (.Attribute (.Call (.Name "f") .nil) "bar") .nil) = false
    ∧ ¬ (∀ (names : List String) (mode : EBMode) (e : PyExpr),
          (transformStmt names mode (.Expr e)).1 = none ↔ specMatchedCall names e = true) := by
  refine ⟨by decide, by decide, fun h => ?_⟩
  have := (h ["bar"] .passMode
    (.Call (.Attribute (.Call (.Name "f") .nil) "bar") .nil)).mp (by decide)
  exact absurd this (by decide)

/-- C1 (amended): an expression statement whose value is a call is removed
(with count 1) iff the code resolves its callee to a dotted name in the set,
and kept verbatim (count 0) otherwise.  A bare identifier resolves to itself;
on bases that are themselves names or attribute accesses, `_get_full_name`
joins exactly as the specification describes; a base of any other shape
resolves to just the attribute label; and a callee that is itself neither a
name nor an attribute access resolves to nothing, so such statements are
kept. -/
theorem C1_resolution_amended (names : List String) (mode : EBMode) (f : PyExpr)
    (args : ExprList) :
    (transformStmt names mode (.Expr (.Call f args)) = (none, 1)
      ↔ ∃ n, resolvedCalleeName f = some n ∧ n ∈ names)
    ∧ (transformStmt names mode (.Expr (.Call f args)) = (some (.Expr (.Call f args)), 0)
      ↔ ¬ ∃ n, resolvedCalleeName f = some n ∧ n ∈ names)
    ∧ (∀ (id : String), resolvedCalleeName (.Name id) = some id)
    ∧ (∀ (v : PyExpr) (a s : String),
        specResolvedName v = some s → get_full_name v a = s ++ "." ++ a)
    ∧ (∀ (g : PyExpr) (as : ExprList) (a : String),
        resolvedCalleeName (.Attribute (.Call g as) a) = some a)
    ∧ (∀ (g : PyExpr) (as : ExprList), resolvedCalleeName (.Call g as) = none) := by
  refine ⟨?_, ?_, fun _ => rfl, fun v => get_full_name_spec v, fun _ _ _ => rfl, fun _ _ => rfl⟩
  · by_cases hm : matchedCall names (.Call f args) = true
    · simpa [transformStmt, hm] using (matchedCall_iff names f args).mp hm
    · rw [show (∃ n, resolvedCalleeName f = some n ∧ n ∈ names)
            = (matchedCall names (.Call f args) = true) from
          propext (matchedCall_iff names f args).symm]
      simp [transformStmt, hm]
  · by_cases hm : matchedCall names (.Call f args) = true
    · rw [show (∃ n, resolvedCalleeName f = some n ∧ n ∈ names)
            = (matchedCall names (.Call f args) = true) from
          propext (matchedCall_iff names f args).symm]
      simp [transformStmt, hm]
    · rw [show (∃ n, resolvedCalleeName f = some n ∧ n ∈ names)
            = (matchedCall names (.Call f args) = true) from
          propext (matchedCall_iff names f args).symm]
      simp [transformStmt, hm]

/-- C1 (witness): `logging.debug(...)` is removed when `logging.debug` is
configured, and the joined resolution agrees with the specification on a
two-level attribute chain. -/
theorem C1_resolution_amended_witness :
    transformStmt ["logging.debug"] .passMode
        (.Expr (.Call (.Attribute (.Name "logging") "debug") .nil)) = (none, 1)
    ∧ get_full_name (.Attribute (.Name "a") "b") "c" = "a.b.c" := by
  constructor
  · exact (C1_resolution_amended ["logging.debug"] .passMode
      (.Attribute (.Name "logging") "debug") .nil).1.mpr ⟨"logging.debug", rfl, by decide⟩
  · exact (C1_resolution_amended [] .passMode (.Name "x") .nil).2.2.2.1
      (.Attribute (.Name "a") "b") "c" "a.b" rfl

/-- C2 (the code at the failing input): under the `'pass'` policy an `if`
statement that has no else-clause and from which nothing was removed gains an
`else: pass` clause (so the construct is not left unchanged), and a `try`
statement with no finally-clause likewise gains `finally: pass`. -/
theorem C2_untouched_construct_divergence :
    transformStmt ["print"] .passMode
        (.If (.Name "x") (.cons (.Assign "y" (.Constant 1)) .nil) .nil)
      = (some (.If (.Name "x") (.cons (.Assign "y" (.Constant 1)) .nil) (.cons .Pass .nil)), 0)
    ∧ (transformStmt ["print"] .passMode
        (.If (.Name "x") (.cons (.Assign "y" (.Constant 1)) .nil) .nil)).1
        ≠ some (.If (.Name "x") (.cons (.Assign "y" (.Constant 1)) .nil) .nil)
    ∧ transformStmt ["print"] .passMode
        (.Try (.cons (.Assign "y" (.Constant 1)) .nil)
          (.cons (.mk none (.cons .Pass .nil)) .nil) .nil .nil)
      = (some (.Try (.cons (.Assign "y" (.Constant 1)) .nil)
          (.cons (.mk none (.cons .Pass .nil)) .nil) .nil (.cons .Pass .nil)), 0) := by
  refine ⟨by decide, by decide, by decide⟩

/-- C3: under the `'pass'` (Synthesize) policy, every compound construct
whose (transformed) body list is empty ends up with exactly one `Pass`
placeholder as its body and nothing else; the removal count is the sum of the
counts of the sub-lists. -/
theorem C3_synthesize_placeholder (names : List String) :
    (∀ (test : PyExpr) (body orelse o : StmtList) (c1 c2 : Nat),
      transformBody names .passMode body = (.nil, c1) →
      transformBody names .passMode orelse = (o, c2) →
      transformStmt names .passMode (.If test body orelse)
        = (some (.If test (.cons .Pass .nil) (reconcileElse .passMode o)), c1 + c2))
    ∧ (∀ (tgt : String) (iter : PyExpr) (body orelse o : StmtList) (c1 c2 : Nat),
      transformBody names .passMode body = (.nil, c1) →
      transformBody names .passMode orelse = (o, c2) →
      transformStmt names .passMode (.For tgt iter body orelse)
        = (some (.For tgt iter (.cons .Pass .nil) (reconcileElse .passMode o)), c1 + c2))
    ∧ (∀ (test : PyExpr) (body orelse o : StmtList) (c1 c2 : Nat),
      transformBody names .passMode body = (.nil, c1) →
      transformBody names .passMode orelse = (o, c2) →
      transformStmt names .passMode (.While test body orelse)
        = (some (.While test (.cons .Pass .nil) (reconcileElse .passMode o)), c1 + c2))
    ∧ (∀ (body orelse finalbody o f : StmtList) (handlers hs : HandlerList)
         (c1 c2 c3 c4 : Nat),
      transformBody names .passMode body = (.nil, c1) →
      transformHandlers names .passMode handlers = (hs, c2) →
      transformBody names .passMode orelse = (o, c3) →
      transformBody names .passMode finalbody = (f, c4) →
      transformStmt names .passMode (.Try body handlers orelse finalbody)
        = (some (.Try (.cons .Pass .nil) (reconcileHandlers .passMode hs) o
            (reconcileElse .passMode f)), c1 + c2 + c3 + c4)) := by
  refine ⟨?_, ?_, ?_, ?_⟩
  · intro test body orelse o c1 c2 hb ho
    simp [transformStmt, hb, ho, reconcileBody]
  · intro tgt iter body orelse o c1 c2 hb ho
    simp [transformStmt, hb, ho, reconcileBody]
  · intro test body orelse o c1 c2 hb ho
    simp [transformStmt, hb, ho, reconcileBody]
  · intro body orelse finalbody o f handlers hs c1 c2 c3 c4 hb hh ho hf
    simp [transformStmt, hb, hh, ho, hf, reconcileBody]

/-- C3 (witness, the specified scenario): `if x: print("a") else: print("b")`
with `names = {"print"}` becomes `if x: pass else: pass` with removal count
2. -/
theorem C3_synthesize_placeholder_witness :
    transformStmt ["print"] .passMode
        (.If (.Name "x")
          (.cons (.Expr (.Call (.Name "print") (.cons (.Constant 0) .nil))) .nil)
          (.cons (.Expr (.Call (.Name "print") (.cons (.Constant 1) .nil))) .nil))
      = (some (.If (.Name "x") (.cons .Pass .nil) (.cons .Pass .nil)), 2) := by
  have h := (C3_synthesize_placeholder ["print"]).1 (.Name "x")
    (.cons (.Expr (.Call (.Name "print") (.cons (.Constant 0) .nil))) .nil)
    (.cons (.Expr (.Call (.Name "print") (.cons (.Constant 1) .nil))) .nil)
    .nil 1 1 (by decide) (by decide)
  simpa [reconcileElse] using h

/-- `generic_visit` over a statement list distributes over append: each
statement is visited independently and survivors keep their relative order. -/
theorem transformBody_append (names : List String) (mode : EBMode) :
    ∀ (l1 l2 : StmtList),
      transformBody names mode (l1.append l2)
        = ((transformBody names mode l1).1.append (transformBody names mode l2).1,
           (transformBody names mode l1).2 + (transformBody names mode l2).2)
  | .nil, l2 => by simp [StmtList.append, transformBody]
  | .cons s rest, l2 => by
    have ih := transformBody_append names mode rest l2
    rcases hS : transformStmt names mode s with ⟨r, c1⟩
    rcases hR : transformBody names mode rest with ⟨rest', c2⟩
    rcases hL : transformBody names mode l2 with ⟨l2', c3⟩
    rw [hR, hL] at ih
    cases r <;>
      simp [StmtList.append, transformBody, hS, hR, hL, ih, Nat.add_assoc]
/-- C4: under the `'remove'` (Delete) policy, every compound construct
(conditional, for-loop, while-loop, try-block) whose transformed body is
empty is absent from its parent's statement list: the parent's output list is
exactly the transform of the preceding siblings appended to the transform of
the following siblings, in order, while the construct's removals still
count. -/
theorem C4_delete_absent (names : List String) :
    (∀ (test : PyExpr) (body orelse pre post o pre' post' : StmtList)
       (c1 c2 cpre cpost : Nat),
      transformBody names .removeMode body = (.nil, c1) →
      transformBody names .removeMode orelse = (o, c2) →
      transformBody names .removeMode pre = (pre', cpre) →
      transformBody names .removeMode post = (post', cpost) →
      transformBody names .removeMode
          (pre.append (.cons (.If test body orelse) post))
        = (pre'.append post', cpre + (c1 + c2) + cpost))
    ∧ (∀ (tgt : String) (iter : PyExpr) (body orelse pre post o pre' post' : StmtList)
       (c1 c2 cpre cpost : Nat),
      transformBody names .removeMode body = (.nil, c1) →
      transformBody names .removeMode orelse = (o, c2) →
      transformBody names .removeMode pre = (pre', cpre) →
      transformBody names .removeMode post = (post', cpost) →
      transformBody names .removeMode
          (pre.append (.cons (.For tgt iter body orelse) post))
        = (pre'.append post', cpre + (c1 + c2) + cpost))
    ∧ (∀ (test : PyExpr) (body orelse pre post o pre' post' : StmtList)
       (c1 c2 cpre cpost : Nat),
      transformBody names .removeMode body = (.nil, c1) →
      transformBody names .removeMode orelse = (o, c2) →
      transformBody names .removeMode pre = (pre', cpre) →
      transformBody names .removeMode post = (post', cpost) →
      transformBody names .removeMode
          (pre.append (.cons (.While test body orelse) post))
        = (pre'.append post', cpre + (c1 + c2) + cpost))
    ∧ (∀ (body orelse finalbody pre post o f pre' post' : StmtList)
       (handlers hs : HandlerList) (c1 c2 c3 c4 cpre cpost : Nat),
      transformBody names .removeMode body = (.nil, c1) →
      transformHandlers names .removeMode handlers = (hs, c2) →
      transformBody names .removeMode orelse = (o, c3) →
      transformBody names .removeMode finalbody = (f, c4) →
      transformBody names .removeMode pre = (pre', cpre) →
      transformBody names .removeMode post = (post', cpost) →
      transformBody names .removeMode
          (pre.append (.cons (.Try body handlers orelse finalbody) post))
        = (pre'.append post', cpre + (c1 + c2 + c3 + c4) + cpost)) := by
  have key : ∀ (mid : Stmt) (cmid : Nat) (pre post pre' post' : StmtList)
      (cpre cpost : Nat),
      transformStmt names .removeMode mid = (none, cmid) →
      transformBody names .removeMode pre = (pre', cpre) →
      transformBody names .removeMode post = (post', cpost) →
      transformBody names .removeMode (pre.append (.cons mid post))
        = (pre'.append post', cpre + cmid + cpost) := by
    intro mid cmid pre post pre' post' cpre cpost hmid hpre hpost
    have h1 := transformBody_append names .removeMode pre (.cons mid post)
    have h2 : transformBody names .removeMode (.cons mid post)
        = (post', cmid + cpost) := by
      simp [transformBody, hmid, hpost]
    rw [h2, hpre] at h1
    rw [h1]
    congr 1
    omega
  refine ⟨?_, ?_, ?_, ?_⟩
  · intro test body orelse pre post o pre' post' c1 c2 cpre cpost hb ho hpre hpost
    exact key _ _ _ _ _ _ _ _ (by simp [transformStmt, hb, ho, reconcileBody]) hpre hpost
  · intro tgt iter body orelse pre post o pre' post' c1 c2 cpre cpost hb ho hpre hpost
    exact key _ _ _ _ _ _ _ _ (by simp [transformStmt, hb, ho, reconcileBody]) hpre hpost
  · intro test body orelse pre post o pre' post' c1 c2 cpre cpost hb ho hpre hpost
    exact key _ _ _ _ _ _ _ _ (by simp [transformStmt, hb, ho, reconcileBody]) hpre hpost
  · intro body orelse finalbody pre post o f pre' post' handlers hs c1 c2 c3 c4 cpre cpost
      hb hh ho hf hpre hpost
    exact key _ _ _ _ _ _ _ _
      (by simp [transformStmt, hb, hh, ho, hf, reconcileBody]) hpre hpost

/-- C4 (witness, the specified scenario): with Delete,
`a = 0; if x: print("a") else: print("b"); z = 0` loses the entire `if`
construct, the two sibling assignments are unchanged and in order, and the
removal count is 2. -/
theorem C4_delete_absent_witness :
    transformBody ["print"] .removeMode
        ((StmtList.cons (.Assign "a" (.Constant 0)) .nil).append
          (.cons (.If (.Name "x")
              (.cons (.Expr (.Call (.Name "print") (.cons (.Constant 0) .nil))) .nil)
              (.cons (.Expr (.Call (.Name "print") (.cons (.Constant 1) .nil))) .nil))
            (.cons (.Assign "z" (.Constant 0)) .nil)))
      = (.cons (.Assign "a" (.Constant 0)) (.cons (.Assign "z" (.Constant 0)) .nil), 2) := by
  have h := (C4_delete_absent ["print"]).1 (.Name "x")
    (.cons (.Expr (.Call (.Name "print") (.cons (.Constant 0) .nil))) .nil)
    (.cons (.Expr (.Call (.Name "print") (.cons (.Constant 1) .nil))) .nil)
    (.cons (.Assign "a" (.Constant 0)) .nil)
    (.cons (.Assign "z" (.Constant 0)) .nil)
    .nil (.cons (.Assign "a" (.Constant 0)) .nil) (.cons (.Assign "z" (.Constant 0)) .nil)
    1 1 0 0 (by decide) (by decide) (by decide) (by decide)
  simpa [StmtList.append] using h

/-- C7: empty-block evaluation is post-order.  Under Delete, every compound
construct with a deletable body (`if`, `for`, `while`, `try`) is deleted
exactly when its body is empty after all removals in the subtree have been
performed; consequently a nested construct that is itself deleted because its
body emptied can leave its parent's body empty and cause the parent to be
deleted in the same single application. -/
theorem C7_postorder_cascade (names : List String) :
    (∀ (test : PyExpr) (body orelse : StmtList),
      (transformStmt names .removeMode (.If test body orelse)).1 = none
        ↔ (transformBody names .removeMode body).1 = .nil)
    ∧ (∀ (tgt : String) (iter : PyExpr) (body orelse : StmtList),
      (transformStmt names .removeMode (.For tgt iter body orelse)).1 = none
        ↔ (transformBody names .removeMode body).1 = .nil)
    ∧ (∀ (test : PyExpr) (body orelse : StmtList),
      (transformStmt names .removeMode (.While test body orelse)).1 = none
        ↔ (transformBody names .removeMode body).1 = .nil)
    ∧ (∀ (body orelse finalbody : StmtList) (handlers : HandlerList),
      (transformStmt names .removeMode (.Try body handlers orelse finalbody)).1 = none
        ↔ (transformBody names .removeMode body).1 = .nil)
    ∧ (∀ (t1 t2 : PyExpr) (inner o1 o2 : StmtList),
      (transformBody names .removeMode inner).1 = .nil →
      (transformStmt names .removeMode
          (.If t1 (.cons (.If t2 inner o2) .nil) o1)).1 = none) := by
  have key : ∀ (test : PyExpr) (body orelse : StmtList),
      (transformStmt names .removeMode (.If test body orelse)).1 = none
        ↔ (transformBody names .removeMode body).1 = .nil := by
    intro test body orelse
    rcases hb : transformBody names .removeMode body with ⟨b, c1⟩
    rcases ho : transformBody names .removeMode orelse with ⟨o, c2⟩
    cases b <;> simp [transformStmt, hb, ho, reconcileBody]
  refine ⟨key, ?_, ?_, ?_, ?_⟩
  · intro tgt iter body orelse
    rcases hb : transformBody names .removeMode body with ⟨b, c1⟩
    rcases ho : transformBody names .removeMode orelse with ⟨o, c2⟩
    cases b <;> simp [transformStmt, hb, ho, reconcileBody]
  · intro test body orelse
    rcases hb : transformBody names .removeMode body with ⟨b, c1⟩
    rcases ho : transformBody names .removeMode orelse with ⟨o, c2⟩
    cases b <;> simp [transformStmt, hb, ho, reconcileBody]
  · intro body orelse finalbody handlers
    rcases hb : transformBody names .removeMode body with ⟨b, c1⟩
    rcases hh : transformHandlers names .removeMode handlers with ⟨hs, c2⟩
    rcases ho : transformBody names .removeMode orelse with ⟨o, c3⟩
    rcases hf : transformBody names .removeMode finalbody with ⟨f, c4⟩
    cases b <;> simp [transformStmt, hb, hh, ho, hf, reconcileBody]
  · intro t1 t2 inner o1 o2 hinner
    rcases hi : transformStmt names .removeMode (.If t2 inner o2) with ⟨ri, ci⟩
    have hri : ri = none := by
      have := (key t2 inner o2).mpr hinner
      rw [hi] at this
      exact this
    subst hri
    apply (key t1 (.cons (.If t2 inner o2) .nil) o1).mpr
    simp [transformBody, hi]

/-- C7 (witness): `if x: (if y: print(0))` under Delete — the inner `if`
empties and is deleted, which empties the outer body and deletes the outer
`if` too, in one application. -/
theorem C7_postorder_cascade_witness :
    (transformStmt ["print"] .removeMode
        (.If (.Name "x")
          (.cons (.If (.Name "y")
              (.cons (.Expr (.Call (.Name "print") (.cons (.Constant 0) .nil))) .nil)
              .nil) .nil)
          .nil)).1 = none := by
  exact (C7_postorder_cascade ["print"]).2.2.2.2 (.Name "x") (.Name "y")
    (.cons (.Expr (.Call (.Name "print") (.cons (.Constant 0) .nil))) .nil)
    .nil .nil (by decide)

/-- `generic_visit` over a handler list distributes over append. -/
theorem transformHandlers_append (names : List String) (mode : EBMode) :
    ∀ (l1 l2 : HandlerList),
      transformHandlers names mode (l1.append l2)
        = ((transformHandlers names mode l1).1.append (transformHandlers names mode l2).1,
           (transformHandlers names mode l1).2 + (transformHandlers names mode l2).2)
  | .nil, l2 => by simp [HandlerList.append, transformHandlers]
  | .cons (.mk t b) rest, l2 => by
    have ih := transformHandlers_append names mode rest l2
    rcases hB : transformBody names mode b with ⟨b', c1⟩
    rcases hR : transformHandlers names mode rest with ⟨rest', c2⟩
    rcases hL : transformHandlers names mode l2 with ⟨l2', c3⟩
    rw [hR, hL] at ih
    simp [HandlerList.append, transformHandlers, hB, hR, hL, ih, Nat.add_assoc]

/-- The handler filtering loop treats each handler independently, so it
distributes over append. -/
theorem reconcileHandlers_append (mode : EBMode) :
    ∀ (l1 l2 : HandlerList),
      reconcileHandlers mode (l1.append l2)
        = (reconcileHandlers mode l1).append (reconcileHandlers mode l2)
  | .nil, l2 => by simp [HandlerList.append, reconcileHandlers]
  | .cons (.mk t b) rest, l2 => by
    have ih := reconcileHandlers_append mode rest l2
    cases mode <;> cases b <;> simp [HandlerList.append, reconcileHandlers, ih]

/-- Handlers whose bodies are non-empty pass through the filtering loop
untouched, whatever the policy. -/
theorem reconcileHandlers_of_nonempty (mode : EBMode) :
    ∀ (hs : HandlerList), handlerBodiesNonempty hs = true →
      reconcileHandlers mode hs = hs
  | .nil, _ => rfl
  | .cons (.mk t (.cons s b)) rest, h => by
    have ih := reconcileHandlers_of_nonempty mode rest (by simpa [handlerBodiesNonempty] using h)
    simp [reconcileHandlers, ih]

/-- C6: exception handlers are reconciled independently.  In a `try` whose
handler list is `hpre ++ [h] ++ hpost` where `h`'s body is emptied by removal
and every handler of `hpre`/`hpost` still has a non-empty body: under Delete
the emptied handler is dropped and all others are kept, transformed, in their
original relative order; under Synthesize the emptied handler is kept in
place with exactly one `Pass` placeholder as its body; and (any policy) a
handler list whose bodies are all non-empty is never filtered or
reordered. -/
theorem C6_handler_independence (names : List String) :
    (∀ (body orelse finalbody hb : StmtList) (hpre hpost : HandlerList)
       (t : Option PyExpr) (b b' o f : StmtList) (hs1 hs2 : HandlerList)
       (c1 ca cb cc c3 c4 : Nat),
      transformBody names .removeMode body = (b, c1) →
      reconcileBody .removeMode b = some b' →
      transformHandlers names .removeMode hpre = (hs1, ca) →
      transformBody names .removeMode hb = (.nil, cb) →
      transformHandlers names .removeMode hpost = (hs2, cc) →
      handlerBodiesNonempty hs1 = true →
      handlerBodiesNonempty hs2 = true →
      transformBody names .removeMode orelse = (o, c3) →
      transformBody names .removeMode finalbody = (f, c4) →
      transformStmt names .removeMode
          (.Try body (hpre.append (.cons (.mk t hb) hpost)) orelse finalbody)
        = (some (.Try b' (hs1.append hs2) o (reconcileElse .removeMode f)),
           c1 + (ca + (cb + cc)) + c3 + c4))
    ∧ (∀ (body orelse finalbody hb : StmtList) (hpre hpost : HandlerList)
       (t : Option PyExpr) (b b' o f : StmtList) (hs1 hs2 : HandlerList)
       (c1 ca cb cc c3 c4 : Nat),
      transformBody names .passMode body = (b, c1) →
      reconcileBody .passMode b = some b' →
      transformHandlers names .passMode hpre = (hs1, ca) →
      transformBody names .passMode hb = (.nil, cb) →
      transformHandlers names .passMode hpost = (hs2, cc) →
      handlerBodiesNonempty hs1 = true →
      handlerBodiesNonempty hs2 = true →
      transformBody names .passMode orelse = (o, c3) →
      transformBody names .passMode finalbody = (f, c4) →
      transformStmt names .passMode
          (.Try body (hpre.append (.cons (.mk t hb) hpost)) orelse finalbody)
        = (some (.Try b' (hs1.append (.cons (.mk t (.cons .Pass .nil)) hs2)) o
            (reconcileElse .passMode f)),
           c1 + (ca + (cb + cc)) + c3 + c4))
    ∧ (∀ (mode : EBMode) (hs : HandlerList), handlerBodiesNonempty hs = true →
        reconcileHandlers mode hs = hs) := by
  refine ⟨?_, ?_, fun mode => reconcileHandlers_of_nonempty mode⟩
  · intro body orelse finalbody hb hpre hpost t b b' o f hs1 hs2 c1 ca cb cc c3 c4
      hB hRec hPre hHb hPost hNe1 hNe2 hO hF
    have hmid : transformHandlers names .removeMode (.cons (.mk t hb) hpost)
        = (.cons (.mk t .nil) hs2, cb + cc) := by
      simp [transformHandlers, hHb, hPost]
    have hall := transformHandlers_append names .removeMode hpre (.cons (.mk t hb) hpost)
    rw [hPre, hmid] at hall
    have hrec : reconcileHandlers .removeMode (hs1.append (.cons (.mk t .nil) hs2))
        = hs1.append hs2 := by
      rw [reconcileHandlers_append, reconcileHandlers_of_nonempty _ _ hNe1]
      simp [reconcileHandlers, reconcileHandlers_of_nonempty _ _ hNe2]
    simp [transformStmt, hB, hall, hO, hF, hRec, hrec]
  · intro body orelse finalbody hb hpre hpost t b b' o f hs1 hs2 c1 ca cb cc c3 c4
      hB hRec hPre hHb hPost hNe1 hNe2 hO hF
    have hmid : transformHandlers names .passMode (.cons (.mk t hb) hpost)
        = (.cons (.mk t .nil) hs2, cb + cc) := by
      simp [transformHandlers, hHb, hPost]
    have hall := transformHandlers_append names .passMode hpre (.cons (.mk t hb) hpost)
    rw [hPre, hmid] at hall
    have hrec : reconcileHandlers .passMode (hs1.append (.cons (.mk t .nil) hs2))
        = hs1.append (.cons (.mk t (.cons .Pass .nil)) hs2) := by
      rw [reconcileHandlers_append, reconcileHandlers_of_nonempty _ _ hNe1]
      simp [reconcileHandlers, reconcileHandlers_of_nonempty _ _ hNe2]
    simp [transformStmt, hB, hall, hO, hF, hRec, hrec]

/-- C6 (witness): `try: z = 0 / except A: print(0) / except B: z = 1` — under
Delete the first handler (emptied) is dropped and the second kept unchanged;
under Synthesize the first handler keeps its place with body `pass`. -/
theorem C6_handler_independence_witness :
    transformStmt ["print"] .removeMode
        (.Try (.cons (.Assign "z" (.Constant 0)) .nil)
          (.cons (.mk (some (.Name "A"))
              (.cons (.Expr (.Call (.Name "print") (.cons (.Constant 0) .nil))) .nil))
            (.cons (.mk (some (.Name "B")) (.cons (.Assign "z" (.Constant 1)) .nil)) .nil))
          .nil .nil)
      = (some (.Try (.cons (.Assign "z" (.Constant 0)) .nil)
          (.cons (.mk (some (.Name "B")) (.cons (.Assign "z" (.Constant 1)) .nil)) .nil)
          .nil .nil), 1)
    ∧ transformStmt ["print"] .passMode
        (.Try (.cons (.Assign "z" (.Constant 0)) .nil)
          (.cons (.mk (some (.Name "A"))
              (.cons (.Expr (.Call (.Name "print") (.cons (.Constant 0) .nil))) .nil))
            (.cons (.mk (some (.Name "B")) (.cons (.Assign "z" (.Constant 1)) .nil)) .nil))
          .nil .nil)
      = (some (.Try (.cons (.Assign "z" (.Constant 0)) .nil)
          (.cons (.mk (some (.Name "A")) (.cons .Pass .nil))
            (.cons (.mk (some (.Name "B")) (.cons (.Assign "z" (.Constant 1)) .nil)) .nil))
          .nil (.cons .Pass .nil)), 1) := by
  constructor
  · have h := (C6_handler_independence ["print"]).1
      (.cons (.Assign "z" (.Constant 0)) .nil) .nil .nil
      (.cons (.Expr (.Call (.Name "print") (.cons (.Constant 0) .nil))) .nil)
      .nil (.cons (.mk (some (.Name "B")) (.cons (.Assign "z" (.Constant 1)) .nil)) .nil)
      (some (.Name "A"))
      (.cons (.Assign "z" (.Constant 0)) .nil) (.cons (.Assign "z" (.Constant 0)) .nil)
      .nil .nil
      .nil (.cons (.mk (some (.Name "B")) (.cons (.Assign "z" (.Constant 1)) .nil)) .nil)
      0 0 1 0 0 0
      (by decide) (by decide) (by decide) (by decide) (by decide) (by decide) (by decide)
      (by decide) (by decide)
    simpa [HandlerList.append, reconcileElse] using h
  · have h := (C6_handler_independence ["print"]).2.1
      (.cons (.Assign "z" (.Constant 0)) .nil) .nil .nil
      (.cons (.Expr (.Call (.Name "print") (.cons (.Constant 0) .nil))) .nil)
      .nil (.cons (.mk (some (.Name "B")) (.cons (.Assign "z" (.Constant 1)) .nil)) .nil)
      (some (.Name "A"))
      (.cons (.Assign "z" (.Constant 0)) .nil) (.cons (.Assign "z" (.Constant 0)) .nil)
      .nil .nil
      .nil (.cons (.mk (some (.Name "B")) (.cons (.Assign "z" (.Constant 1)) .nil)) .nil)
      0 0 1 0 0 0
      (by decide) (by decide) (by decide) (by decide) (by decide) (by decide) (by decide)
      (by decide) (by decide)
    simpa [HandlerList.append, reconcileElse] using h

/-- A single synthesized `pass` placeholder is left alone by a further
visit. -/
theorem transformBody_pass_nil (names : List String) (mode : EBMode) :
    transformBody names mode (.cons .Pass .nil) = (.cons .Pass .nil, 0) := by
  simp [transformBody, transformStmt]

/-- The body reconciliation either keeps the body or replaces it by a single
`pass` placeholder. -/
theorem reconcileBody_cases (mode : EBMode) (b b' : StmtList)
    (h : reconcileBody mode b = some b') : b' = b ∨ b' = .cons .Pass .nil := by
  unfold reconcileBody at h
  split at h
  · split at h
    · right
      exact (Option.some.inj h).symm
    · exact Option.noConfusion h
  · left
    exact (Option.some.inj h).symm

/-- Body reconciliation is stable: a body it has produced is reproduced
unchanged by a second reconciliation. -/
theorem reconcileBody_stable (mode : EBMode) (b b' : StmtList)
    (h : reconcileBody mode b = some b') : reconcileBody mode b' = some b' := by
  rcases reconcileBody_cases mode b b' h with rfl | rfl
  · exact h
  · cases mode <;> simp [reconcileBody]

/-- A body produced by reconciliation of a transform-fixed body is itself
transform-fixed. -/
theorem reconcileBody_fix (names : List String) (mode : EBMode) (b b' : StmtList)
    (hfix : transformBody names mode b = (b, 0)) (h : reconcileBody mode b = some b') :
    transformBody names mode b' = (b', 0) := by
  rcases reconcileBody_cases mode b b' h with rfl | rfl
  · exact hfix
  · exact transformBody_pass_nil names mode

/-- Else-clause reconciliation is idempotent. -/
theorem reconcileElse_idem (mode : EBMode) (o : StmtList) :
    reconcileElse mode (reconcileElse mode o) = reconcileElse mode o := by
  cases mode <;> cases o <;> simp [reconcileElse]

/-- The else-clause reconciliation keeps the clause, synthesizes a single
`pass` placeholder, or empties it. -/
theorem reconcileElse_cases (mode : EBMode) (o : StmtList) :
    reconcileElse mode o = o ∨ reconcileElse mode o = .cons .Pass .nil
      ∨ reconcileElse mode o = .nil := by
  cases mode <;> cases o <;> simp [reconcileElse]

/-- An else-clause produced by reconciliation of a transform-fixed clause is
itself transform-fixed. -/
theorem reconcileElse_fix (names : List String) (mode : EBMode) (o : StmtList)
    (h : transformBody names mode o = (o, 0)) :
    transformBody names mode (reconcileElse mode o) = (reconcileElse mode o, 0) := by
  rcases reconcileElse_cases mode o with he | he | he <;> rw [he]
  · exact h
  · exact transformBody_pass_nil names mode
  · simp [transformBody]

/-- Handler filtering is idempotent. -/
theorem reconcileHandlers_idem (mode : EBMode) :
    ∀ (hs : HandlerList),
      reconcileHandlers mode (reconcileHandlers mode hs) = reconcileHandlers mode hs
  | .nil => rfl
  | .cons (.mk t b) rest => by
    have ih := reconcileHandlers_idem mode rest
    cases mode <;> cases b <;> simp [reconcileHandlers, ih]

/-- Handler filtering of a transform-fixed handler list yields a
transform-fixed handler list. -/
theorem transformHandlers_reconcile_fix (names : List String) (mode : EBMode) :
    ∀ (hs : HandlerList), transformHandlers names mode hs = (hs, 0) →
      transformHandlers names mode (reconcileHandlers mode hs)
        = (reconcileHandlers mode hs, 0)
  | .nil, _ => rfl
  | .cons (.mk t b) rest, h => by
    rcases e1 : transformBody names mode b with ⟨b2, c1⟩
    rcases e2 : transformHandlers names mode rest with ⟨rest2, c2⟩
    have hstep : (HandlerList.cons (.mk t b2) rest2, c1 + c2)
        = (HandlerList.cons (.mk t b) rest, 0) := by
      rw [← h]
      simp [transformHandlers, e1, e2]
    injection hstep with hl hc
    injection hl with hh ht
    injection hh with _ hb
    have hc1 : c1 = 0 := by omega
    have hc2 : c2 = 0 := by omega
    have hB : transformBody names mode b = (b, 0) := by rw [e1, hb, hc1]
    have hR : transformHandlers names mode rest = (rest, 0) := by rw [e2, ht, hc2]
    have ihrest := transformHandlers_reconcile_fix names mode rest hR
    cases mode <;> cases b <;>
      simp [reconcileHandlers, transformHandlers, hB, ihrest, transformBody_pass_nil]

mutual
/-- A statement the transformer has produced (not deleted) is a fixed point:
visiting it again changes nothing and removes nothing. -/
theorem fixTransformStmt (names : List String) (mode : EBMode) :
    ∀ (s r : Stmt) (c : Nat), transformStmt names mode s = (some r, c) →
      transformStmt names mode r = (some r, 0)
  | .Expr e, r, c, h => by
    by_cases hm : matchedCall names e = true
    · simp [transformStmt, hm] at h
    · simp [transformStmt, hm] at h
      obtain ⟨hr, -⟩ := h
      subst hr
      simp [transformStmt, hm]
  | .Pass, r, c, h => by
    simp [transformStmt] at h
    obtain ⟨hr, -⟩ := h
    subst hr
    simp [transformStmt]
  | .Assign t e, r, c, h => by
    simp [transformStmt] at h
    obtain ⟨hr, -⟩ := h
    subst hr
    simp [transformStmt]
  | .If test body orelse, r, c, h => by
    rcases hB : transformBody names mode body with ⟨b, c1⟩
    rcases hO : transformBody names mode orelse with ⟨o, c2⟩
    have fixB : transformBody names mode b = (b, 0) := by
      have hx := fixTransformBody names mode body
      rw [hB] at hx
      exact hx
    have fixO : transformBody names mode o = (o, 0) := by
      have hx := fixTransformBody names mode orelse
      rw [hO] at hx
      exact hx
    simp only [transformStmt, hB, hO] at h
    rcases hR : reconcileBody mode b with _ | b'
    · rw [hR] at h
      simp at h
    · rw [hR] at h
      simp at h
      obtain ⟨hr, -⟩ := h
      subst hr
      have fixB' := reconcileBody_fix names mode b b' fixB hR
      have hR' := reconcileBody_stable mode b b' hR
      have fixO' := reconcileElse_fix names mode o fixO
      simp [transformStmt, fixB', fixO', hR', reconcileElse_idem]
  | .For tgt iter body orelse, r, c, h => by
    rcases hB : transformBody names mode body with ⟨b, c1⟩
    rcases hO : transformBody names mode orelse with ⟨o, c2⟩
    have fixB : transformBody names mode b = (b, 0) := by
      have hx := fixTransformBody names mode body
      rw [hB] at hx
      exact hx
    have fixO : transformBody names mode o = (o, 0) := by
      have hx := fixTransformBody names mode orelse
      rw [hO] at hx
      exact hx
    simp only [transformStmt, hB, hO] at h
    rcases hR : reconcileBody mode b with _ | b'
    · rw [hR] at h
      simp at h
    · rw [hR] at h
      simp at h
      obtain ⟨hr, -⟩ := h
      subst hr
      have fixB' := reconcileBody_fix names mode b b' fixB hR
      have hR' := reconcileBody_stable mode b b' hR
      have fixO' := reconcileElse_fix names mode o fixO
      simp [transformStmt, fixB', fixO', hR', reconcileElse_idem]
  | .While test body orelse, r, c, h => by
    rcases hB : transformBody names mode body with ⟨b, c1⟩
    rcases hO : transformBody names mode orelse with ⟨o, c2⟩
    have fixB : transformBody names mode b = (b, 0) := by
      have hx := fixTransformBody names mode body
      rw [hB] at hx
      exact hx
    have fixO : transformBody names mode o = (o, 0) := by
      have hx := fixTransformBody names mode orelse
      rw [hO] at hx
      exact hx
    simp only [transformStmt, hB, hO] at h
    rcases hR : reconcileBody mode b with _ | b'
    · rw [hR] at h
      simp at h
    · rw [hR] at h
      simp at h
      obtain ⟨hr, -⟩ := h
      subst hr
      have fixB' := reconcileBody_fix names mode b b' fixB hR
      have hR' := reconcileBody_stable mode b b' hR
      have fixO' := reconcileElse_fix names mode o fixO
      simp [transformStmt, fixB', fixO', hR', reconcileElse_idem]
  | .Try body handlers orelse finalbody, r, c, h => by
    rcases hB : transformBody names mode body with ⟨b, c1⟩
    rcases hH : transformHandlers names mode handlers with ⟨hs, c2⟩
    rcases hO : transformBody names mode orelse with ⟨o, c3⟩
    rcases hF : transformBody names mode finalbody with ⟨f, c4⟩
    have fixB : transformBody names mode b = (b, 0) := by
      have hx := fixTransformBody names mode body
      rw [hB] at hx
      exact hx
    have fixH : transformHandlers names mode hs = (hs, 0) := by
      have hx := fixTransformHandlers names mode handlers
      rw [hH] at hx
      exact hx
    have fixO : transformBody names mode o = (o, 0) := by
      have hx := fixTransformBody names mode orelse
      rw [hO] at hx
      exact hx
    have fixF : transformBody names mode f = (f, 0) := by
      have hx := fixTransformBody names mode finalbody
      rw [hF] at hx
      exact hx
    simp only [transformStmt, hB, hH, hO, hF] at h
    rcases hR : reconcileBody mode b with _ | b'
    · rw [hR] at h
      simp at h
    · rw [hR] at h
      simp at h
      obtain ⟨hr, -⟩ := h
      subst hr
      have fixB' := reconcileBody_fix names mode b b' fixB hR
      have hR' := reconcileBody_stable mode b b' hR
      have fixH' := transformHandlers_reconcile_fix names mode hs fixH
      have fixF' := reconcileElse_fix names mode f fixF
      simp [transformStmt, fixB', fixH', fixO, fixF', hR', reconcileElse_idem,
        reconcileHandlers_idem]
  | .FunctionDef n body, r, c, h => by
    rcases hB : transformBody names mode body with ⟨b, c1⟩
    have fixB : transformBody names mode b = (b, 0) := by
      have hx := fixTransformBody names mode body
      rw [hB] at hx
      exact hx
    simp [transformStmt, hB] at h
    obtain ⟨hr, -⟩ := h
    subst hr
    simp [transformStmt, fixB]

/-- A statement list the transformer has produced is a fixed point: a second
pass returns it unchanged with a zero removal count. -/
theorem fixTransformBody (names : List String) (mode : EBMode) :
    ∀ (l : StmtList),
      transformBody names mode (transformBody names mode l).1
        = ((transformBody names mode l).1, 0)
  | .nil => by simp [transformBody]
  | .cons s rest => by
    rcases hS : transformStmt names mode s with ⟨r, c1⟩
    rcases hR : transformBody names mode rest with ⟨rest', c2⟩
    have ihrest : transformBody names mode rest' = (rest', 0) := by
      have hx := fixTransformBody names mode rest
      rw [hR] at hx
      exact hx
    cases r with
    | none =>
      have hwhole : transformBody names mode (.cons s rest) = (rest', c1 + c2) := by
        simp [transformBody, hS, hR]
      rw [hwhole]
      exact ihrest
    | some s' =>
      have hs' : transformStmt names mode s' = (some s', 0) :=
        fixTransformStmt names mode s s' c1 hS
      have hwhole : transformBody names mode (.cons s rest)
          = (.cons s' rest', c1 + c2) := by
        simp [transformBody, hS, hR]
      rw [hwhole]
      simp [transformBody, hs', ihrest]

/-- A handler list the transformer has produced is a fixed point. -/
theorem fixTransformHandlers (names : List String) (mode : EBMode) :
    ∀ (hs : HandlerList),
      transformHandlers names mode (transformHandlers names mode hs).1
        = ((transformHandlers names mode hs).1, 0)
  | .nil => by simp [transformHandlers]
  | .cons (.mk t b) rest => by
    rcases hB : transformBody names mode b with ⟨b', c1⟩
    rcases hR : transformHandlers names mode rest with ⟨rest', c2⟩
    have fixB : transformBody names mode b' = (b', 0) := by
      have hx := fixTransformBody names mode b
      rw [hB] at hx
      exact hx
    have ihrest : transformHandlers names mode rest' = (rest', 0) := by
      have hx := fixTransformHandlers names mode rest
      rw [hR] at hx
      exact hx
    have hwhole : transformHandlers names mode (.cons (.mk t b) rest)
        = (.cons (.mk t b') rest', c1 + c2) := by
      simp [transformHandlers, hB, hR]
    rw [hwhole]
    simp [transformHandlers, fixB, ihrest]
end

/-- C5: the transformer is idempotent.  For every tree, every name set and
every empty-block policy, a second application returns the first
application's tree unchanged and removes zero calls. -/
theorem C5_transformer_idempotent (names : List String) (mode : EBMode) (tree : StmtList) :
    transformModule names mode (transformModule names mode tree).1
      = ((transformModule names mode tree).1, 0) :=
  fixTransformBody names mode tree

/-- C8: on a parse (or transform) failure, `clean_file` recovers: the
call-removal step is skipped and its statistic is zero, comment stripping
(when enabled) is still applied to the original source text, and the write
decision is driven by the stripping result alone. -/
theorem C8_parse_failure_recovery (unparse : StmtList → String) (source : String)
    (names : List String) (flag dry backup : Bool) (mode : EBMode) :
    (clean_file none unparse source names flag dry backup mode).function_calls_removed = 0
    ∧ (clean_file none unparse source names flag dry backup mode).output
        = (stripStage flag source).1
    ∧ (clean_file none unparse source names flag dry backup mode).comments_removed
        = (stripStage flag source).2
    ∧ (clean_file none unparse source names flag dry backup mode).write_attempted
        = (!dry && (stripStage flag source).2) := by
  rcases hS : stripStage flag source with ⟨m2, ch⟩
  simp [clean_file, astStage, hS]

/-- C10: when the transformer removes zero calls, `clean_file` never adopts
the re-serialized tree — the text after the AST stage is the original source,
independently of what `unparse` produces — and if comment stripping is
disabled or changes nothing, the final content is byte-for-byte the source,
no write is attempted and no backup is attempted. -/
theorem C10_no_removal_no_rewrite :
    (∀ (tree : StmtList) (u : StmtList → String) (source : String)
       (names : List String) (mode : EBMode),
      (transformModule names mode tree).2 = 0 →
      astStage (some tree) u names mode source = (source, 0))
    ∧ (∀ (tree : StmtList) (u : StmtList → String) (source : String)
         (names : List String) (dry backup : Bool) (mode : EBMode),
      (transformModule names mode tree).2 = 0 →
      (clean_file (some tree) u source names false dry backup mode).output = source
      ∧ (clean_file (some tree) u source names false dry backup mode).write_attempted = false
      ∧ (clean_file (some tree) u source names false dry backup mode).backup_attempted = false)
    ∧ (∀ (tree : StmtList) (u : StmtList → String) (source : String)
         (names : List String) (dry backup : Bool) (mode : EBMode),
      (transformModule names mode tree).2 = 0 →
      remove_comments source = source →
      (clean_file (some tree) u source names true dry backup mode).output = source
      ∧ (clean_file (some tree) u source names true dry backup mode).write_attempted = false
      ∧ (clean_file (some tree) u source names true dry backup mode).backup_attempted = false) := by
  have key : ∀ (tree : StmtList) (u : StmtList → String) (source : String)
      (names : List String) (mode : EBMode),
      (transformModule names mode tree).2 = 0 →
      astStage (some tree) u names mode source = (source, 0) := by
    intro tree u source names mode h0
    rcases hT : transformModule names mode tree with ⟨t', c⟩
    rw [hT] at h0
    simp at h0
    subst h0
    simp [astStage, hT]
  refine ⟨key, ?_, ?_⟩
  · intro tree u source names dry backup mode h0
    simp [clean_file, key tree u source names mode h0, stripStage]
  · intro tree u source names dry backup mode h0 hrc
    simp [clean_file, key tree u source names mode h0, stripStage, hrc]

/-- C10 (witness): a file whose only statement is an assignment, with
`names = {"print"}`: nothing is removed, the output equals the source even
though `unparse` would produce something else, and neither write nor backup
is attempted. -/
theorem C10_no_removal_no_rewrite_witness :
    astStage (some (.cons (.Assign "x" (.Constant 0)) .nil)) (fun _ => "XX")
        ["print"] .passMode "x = 0" = ("x = 0", 0)
    ∧ (clean_file (some (.cons (.Assign "x" (.Constant 0)) .nil)) (fun _ => "XX")
        "x = 0" ["print"] false false true .passMode).output = "x = 0"
    ∧ (clean_file (some (.cons (.Assign "x" (.Constant 0)) .nil)) (fun _ => "XX")
        "x = 0" ["print"] false false true .passMode).write_attempted = false
    ∧ (clean_file (some (.cons (.Assign "x" (.Constant 0)) .nil)) (fun _ => "XX")
        "x = 0" ["print"] true false true .passMode).output = "x = 0"
    ∧ (clean_file (some (.cons (.Assign "x" (.Constant 0)) .nil)) (fun _ => "XX")
        "x = 0" ["print"] true false true .passMode).backup_attempted = false := by
  refine ⟨C10_no_removal_no_rewrite.1 _ _ _ _ _ (by decide),
    (C10_no_removal_no_rewrite.2.1 _ _ _ _ false true _ (by decide)).1,
    (C10_no_removal_no_rewrite.2.1 _ _ _ _ false true _ (by decide)).2.1,
    (C10_no_removal_no_rewrite.2.2 _ _ _ _ false true _ (by decide) ?_).1,
    (C10_no_removal_no_rewrite.2.2 _ _ _ _ false true _ (by decide) ?_).2.2⟩ <;> rfl

/-- Splitting on newlines always yields at least one line. -/
theorem splitOnNl_ne_nil : ∀ (cs : List Char), splitOnNl cs ≠ []
  | [] => by simp [splitOnNl]
  | c :: cs => by
    by_cases hc : c = '\n'
    · simp [splitOnNl, hc]
    · cases hs : splitOnNl cs <;> simp [splitOnNl, hc, hs]

/-- Stripping a line only looks at whether the preceding character is a
quote. -/
theorem stripLine_congr (p q : Option Char) (h : isQuoteOpt p = isQuoteOpt q) :
    ∀ (l : List Char), stripLine p l = stripLine q l
  | [] => rfl
  | c :: cs => by simp [stripLine, h]

/-- Joining distributes a leading character of the first line. -/
theorem joinNl_cons_head (c : Char) (x : List Char) (M : List (List Char)) :
    joinNl ((c :: x) :: M) = c :: joinNl (x :: M) := by
  cases M <;> simp [joinNl]

/-- The scanner of `remove_comments` agrees with the line-wise description:
outside a comment it strips the first line relative to `prev` and later lines
at their starts; inside a comment it drops the rest of the first line. -/
theorem stripChars_eq_lines :
    ∀ (cs : List Char) (prev : Option Char) (inC : Bool),
      stripChars prev inC cs
        = joinNl (if inC then dropFirstRest (splitOnNl cs)
            else stripFirstRest prev (splitOnNl cs))
  | [], prev, inC => by
    cases inC <;> simp [stripChars, splitOnNl, dropFirstRest, stripFirstRest, stripLine, joinNl]
  | c :: cs, prev, inC => by
    rcases hsplit : splitOnNl cs with _ | ⟨l, ls⟩
    · exact absurd hsplit (splitOnNl_ne_nil cs)
    cases inC
    · by_cases hm : (c = '#' && !isQuoteOpt prev) = true
      · have hc : ¬ c = '\n' := by
          rcases Bool.and_eq_true_iff.mp hm with ⟨hc1, -⟩
          intro hcn
          rw [hcn] at hc1
          exact absurd (of_decide_eq_true hc1) (by decide)
        have ihT := stripChars_eq_lines cs (some c) true
        rw [hsplit] at ihT
        simp only [stripChars, hm, if_true, if_false, Bool.false_eq_true, ihT]
        simp [splitOnNl, hc, hsplit, stripFirstRest, dropFirstRest, stripLine, hm]
      · by_cases hc : c = '\n'
        · subst hc
          have ihF := stripChars_eq_lines cs (some '\n') false
          rw [hsplit] at ihF
          simp only [stripChars, hm, Bool.false_eq_true, if_false, ite_true, ihF]
          have hcongr := stripLine_congr (some '\n') none (by rfl) l
          simp [splitOnNl, hsplit, stripFirstRest, stripLine, joinNl, hcongr]
        · have ihF := stripChars_eq_lines cs (some c) false
          rw [hsplit] at ihF
          simp only [stripChars, hm, hc, Bool.false_eq_true, if_false, ihF]
          simp only [splitOnNl, hc, if_false, hsplit, stripFirstRest]
          rw [show stripLine prev (c :: l) = c :: stripLine (some c) l by simp [stripLine, hm]]
          rw [joinNl_cons_head]
    · by_cases hc : c = '\n'
      · subst hc
        have ihF := stripChars_eq_lines cs (some '\n') false
        rw [hsplit] at ihF
        simp only [stripChars, if_true, ihF]
        have hcongr := stripLine_congr (some '\n') none (by rfl) l
        simp [splitOnNl, hsplit, stripFirstRest, dropFirstRest, stripLine, joinNl, hcongr]
      · have ihT := stripChars_eq_lines cs (some c) true
        rw [hsplit] at ihT
        simp only [stripChars, hc, if_true, Bool.false_eq_true, if_false, ihT]
        simp [splitOnNl, hc, hsplit, dropFirstRest]

/-- `remove_comments` computes exactly the per-line stripping the
specification describes. -/
theorem remove_comments_eq_spec (s : String) :
    remove_comments s = specRemoveComments s := by
  unfold remove_comments specRemoveComments
  congr 1
  rw [stripChars_eq_lines s.data none false]
  rcases hsplit : splitOnNl s.data with _ | ⟨l, ls⟩
  · exact absurd hsplit (splitOnNl_ne_nil _)
  · simp [stripFirstRest]

/-- C9: the comment stripper deletes, on each line, everything from the first
`#` not immediately preceded by a quote character through the end of that
line, leaving the rest of the text unchanged; and the changed flag reported
by the stripping stage is true iff the stage's output differs from its
input. -/
theorem C9_comment_stripper :
    (∀ (s : String), remove_comments s = specRemoveComments s)
    ∧ (∀ (text : String),
        ((stripStage true text).2 = true ↔ (stripStage true text).1 ≠ text)) := by
  refine ⟨remove_comments_eq_spec, ?_⟩
  intro text
  by_cases h : remove_comments text = text <;> simp [stripStage, h]

/-- C9 (witness): on `x = 1  # note` the stripper deletes from the `#` to the
end of the line, and the changed flag is reported. -/
theorem C9_comment_stripper_witness :
    remove_comments "x = 1  # note" = specRemoveComments "x = 1  # note"
    ∧ remove_comments "x = 1  # note" = "x = 1  "
    ∧ (stripStage true "x = 1  # note").2 = true := by
  refine ⟨C9_comment_stripper.1 "x = 1  # note", by decide,
    (C9_comment_stripper.2 "x = 1  # note").mpr (by decide)⟩
